import Mathlib

/-!
Verification of the `awsrunning` topic-modeling pipeline.

This file gives a shallow embedding of the Python sources

  * `build_topic_model.py`   (vocabulary indexing pass `get_words_and_documents`
    and matrix-filling pass `build_matrix`),
  * `AbstractsFromIDs.py`    (`BuildSubset`, the ID-driven corpus assembler),
  * `importAbstracts.py`     (the bibliographic importer: index-ID derivation in
    `GetCmdLineParameters` and the record loop around `ProcessNextAbstract`),
  * `prepare_pubmed_subset.py` (`build_subset`, the ratio sampler),

and proves theorems about the embedded definitions.

Modeling conventions:

  * A corpus file is a `List String` of its lines (without trailing newlines);
    an input corpus is a `List (List String)` of files in command-line order.
  * Python exceptions that abort a function are modeled with `Except`:
    `IndexError` (from evaluating `sToken[0]` on an empty token), `NameError`
    (from `iAbstractsPreviousFiles = iAbstract` when the very first file has no
    lines, so the loop variable `iAbstract` was never bound), `KeyError` (dict
    lookups in `build_matrix`), `ValueError` (failing `int(...)`).
  * Python `str.strip`/`str.lower`/`str.split` are modeled character-wise over
    `List Char`; `strip` uses the ASCII whitespace characters and `lower` is
    `Char.toLower`, which agree with Python on the ASCII inputs considered here.
  * Python string comparison (used by `sorted`) is code-point lexicographic,
    modeled by `strLtB` below; Python `sorted` is modeled with `insertionSort`,
    which is stable and agrees with any correct sort on duplicate-free input.
-/

/-- Exceptions that the modeled Python code can raise. `capacityExceeded` is the
explicit capacity-exceeded failure that the specification requires of
`build_matrix`; it is included in the error type so that theorems can speak
about its (un)reachability. -/
inductive PyErr where
  | indexError
  | nameError
  | keyError
  | valueError
  | capacityExceeded
  deriving DecidableEq, Repr

/-- ASCII whitespace, as removed by Python `str.strip()` on the inputs we model. -/
def isSpaceB (c : Char) : Bool := c == ' ' || c == '\t' || c == '\n' || c == '\r'

/-- Model of Python `s.strip()` on the character list of `s`. -/
def pyStrip (cs : List Char) : List Char :=
  ((cs.dropWhile isSpaceB).reverse.dropWhile isSpaceB).reverse

/-- Model of Python `s.lower()` (character-wise). -/
def pyLower (cs : List Char) : List Char := cs.map Char.toLower

/-- Split a character list at every occurrence of the separator, keeping empty
fields: this is Python `s.split(sep)` for a one-character separator.
`acc` holds the (reversed) characters of the current field. -/
def splitOnC (sep : Char) : List Char → List Char → List (List Char)
  | [], acc => [acc.reverse]
  | c :: cs, acc =>
    if c == sep then acc.reverse :: splitOnC sep cs []
    else splitOnC sep cs (c :: acc)

/-- Python `s.split(sep)` for a one-character separator, producing strings. -/
def splitFields (sep : Char) (s : String) : List String :=
  (splitOnC sep s.data []).map (fun cs => String.mk cs)

/-- Model of `sAbstract.strip().split(' ')` from `build_topic_model.py`:
strip, then split on single spaces keeping empty fields. -/
def pySplit (s : String) : List String :=
  (splitOnC ' ' (pyStrip s.data) []).map (fun cs => String.mk cs)

/-- Maximal runs of characters satisfying `p`; used to model both
`regex.findall(r"[\w-]+", s)` and Python `s.split()` (whitespace runs).
`acc` holds the (reversed) characters of the current run. -/
def runsBy (p : Char → Bool) : List Char → List Char → List (List Char)
  | [], acc => if acc.isEmpty then [] else [acc.reverse]
  | c :: cs, acc =>
    if p c then runsBy p cs (c :: acc)
    else if acc.isEmpty then runsBy p cs []
    else acc.reverse :: runsBy p cs []

/-- A `\w`-or-hyphen character, modeling the regex class `[\w-]` on the ASCII
range (`\w` = letters, digits, underscore). -/
def isWordCharB (c : Char) : Bool := c.isAlphanum || c == '_' || c == '-'

/-- Model of `regex.findall(r"[\w-]+", s)`: the maximal `[\w-]` runs of `s`. -/
def findWordRuns (cs : List Char) : List String :=
  (runsBy isWordCharB cs []).map (fun x => String.mk x)

/-- Model of Python `s.split()`: maximal non-whitespace runs. -/
def wsFields (cs : List Char) : List String :=
  (runsBy (fun c => !isSpaceB c) cs []).map (fun x => String.mk x)

/-- Model of `" ".join(l)` for a list of strings. -/
def joinSpace : List String → String
  | [] => ""
  | [t] => t
  | t :: u :: rest => t ++ " " ++ joinSpace (u :: rest)

/-- Parse a nonempty all-digit string, as `int(...)` succeeds on the numeric
identifiers handled by these programs; `none` models `int` raising `ValueError`. -/
def parseNatCore : List Char → Nat → Option Nat
  | [], acc => some acc
  | c :: cs, acc =>
    if c.isDigit then parseNatCore cs (acc * 10 + (c.toNat - 48)) else none

/-- Parse of `int(s)` for the digit strings these tools feed it. -/
def parseNat? : List Char → Option Nat
  | [] => none
  | c :: cs => parseNatCore (c :: cs) 0

/-- Model of `'{:08d}'.format(n)`: decimal digits of `n` left-padded with zeros to 8. -/
def pad8 (n : Nat) : String :=
  let s := toString n
  String.mk (List.replicate (8 - s.length) '0') ++ s

/-- Code-point lexicographic strict comparison of character lists: this is
Python's `<` on strings. -/
def strLtB : List Char → List Char → Bool
  | [], [] => false
  | [], _ :: _ => true
  | _ :: _, [] => false
  | a :: as, b :: bs =>
    if a.toNat < b.toNat then true
    else if b.toNat < a.toNat then false
    else strLtB as bs

/-- Python `a <= b` on strings (code-point lexicographic). -/
def strLeB (a b : String) : Bool := !(strLtB b.data a.data)

/-- The order relation used to model Python `sorted` on strings. -/
def strLe (a b : String) : Prop := strLeB a b = true

instance : DecidableRel strLe :=
  fun a b => inferInstanceAs (Decidable (strLeB a b = true))

/-- Model of Python `sorted` on a list of strings (code-point order). -/
def sortStrings (l : List String) : List String := List.insertionSort strLe l

/-- Deduplication keeping the first occurrence of each element, as Python
`set`/`Counter` construction does when iteration order matters. -/
def firstDedupAux (seen : List String) : List String → List String
  | [] => []
  | x :: xs =>
    if x ∈ seen then firstDedupAux seen xs
    else x :: firstDedupAux (x :: seen) xs

/-- Distinct elements of `l`, first occurrences first. -/
def firstDedup (l : List String) : List String := firstDedupAux [] l

namespace BuildTopicModel

/-- Model of Python `'--' in t` (substring search for a double hyphen). -/
def containsDoubleHyphenB : List Char → Bool
  | [] => false
  | '-' :: '-' :: _ => true
  | _ :: cs => containsDoubleHyphenB cs

/-- A character of the regex class `[0-9\.\,]`. -/
def isNumC (c : Char) : Bool := c.isDigit || c == '.' || c == ','

/-- Model of `re.match("[\+\-]?[0-9\.\,]\%?", t)` being truthy.  `re.match`
anchors only at the start of the string and the character class carries no
repetition, so (after backtracking over the optional sign and the trailing
optional `%`, which can never fail) the regex matches exactly when the token
starts with a `[0-9.,]` character, or with a sign followed by one. -/
def numStartB (t : String) : Bool :=
  match t.data with
  | [] => false
  | c :: rest =>
    isNumC c ||
      ((c == '+' || c == '-') &&
        (match rest with
         | [] => false
         | d :: _ => isNumC d))

/-- One filter test of `get_words_and_documents`:
`'--' in sToken or sToken[0] == '-' or rxNum.match(sToken) or len(sToken) < iMinWordLength`.
Evaluating `sToken[0]` on the empty string raises `IndexError`; the `'--' in`
test is evaluated first and cannot raise. -/
def badToken (minLen : Nat) (t : String) : Except PyErr Bool :=
  if containsDoubleHyphenB t.data then .ok true
  else
    match t.data with
    | [] => .error .indexError
    | c :: _ => .ok (c == '-' || numStartB t || decide (t.length < minLen))

/-- The removal loop `for sToken in sorted(NewWords): if ...: NewWords.remove(sToken)`:
every candidate is tested (the iteration is over a sorted snapshot, so removal
is safe), and the survivors are returned.  An empty candidate raises
`IndexError`, aborting the pass. -/
def filterBad (minLen : Nat) : List String → Except PyErr (List String)
  | [] => .ok []
  | t :: rest =>
    match badToken minLen t with
    | .error e => .error e
    | .ok b =>
      match filterBad minLen rest with
      | .error e => .error e
      | .ok ks => .ok (if b then ks else t :: ks)

/-- Processing of one line by the indexing pass: split, append `Values[0]` to
the document axis, form `set(Values[1:]) - StopWords`, run the removal loop
over its sorted snapshot, and union the survivors into the vocabulary set
(both sets are modeled as duplicate-free lists). -/
def lineStep (minLen : Nat) (stop : List String)
    (acc : List String × List String) (line : String) :
    Except PyErr (List String × List String) :=
  let values := pySplit line
  let docs := acc.2 ++ [values.headD ""]
  let cand := (firstDedup values.tail).filter (fun t => !(decide (t ∈ stop)))
  match filterBad minLen (sortStrings cand) with
  | .error e => .error e
  | .ok kept =>
    .ok (acc.1 ++ kept.filter (fun t => !(decide (t ∈ acc.1))), docs)

/-- The inner loop `for iAbstract, sAbstract in enumerate(strFile, start=c)`:
lines are taken while the running index is at most the cap (`break` fires on
the first index exceeding it), and the final value of the loop variable
`iAbstract` is returned.  On an exhausted nonempty file that value is the index
of its last line, `i - 1`; on a `break` it is the breaking index itself. -/
def lineLoop (cap : Nat) : List String → Nat → List String × Nat
  | [], i => ([], i - 1)
  | l :: rest, i =>
    if cap < i then ([], i)
    else
      let p := lineLoop cap rest (i + 1)
      (l :: p.1, p.2)

/-- The file loop shared by both passes: the per-file counter
`iAbstractsPreviousFiles` starts at 0, each file's `enumerate` starts at its
current value, and after each file it is reassigned from the loop variable
`iAbstract`.  `bound` records whether `iAbstract` has ever been bound: if the
first file (and every file before any line is seen) is empty, the reassignment
raises `NameError`.  Once the counter exceeds the cap no further line is
processed: pass 1 breaks out of the file loop at that point, and pass 2 (which
lacks the break) opens each later file but leaves it on its first line with the
counter unchanged, so both passes process exactly the lines returned here. -/
def tryGo (cap : Nat) : List (List String) → Bool → Nat → Except PyErr (List String)
  | [], _, _ => .ok []
  | f :: rest, bound, c =>
    if cap < c then .ok []
    else
      match f with
      | [] => if bound then tryGo cap rest bound c else .error .nameError
      | l :: ls =>
        let p := lineLoop cap (l :: ls) c
        match tryGo cap rest true p.2 with
        | .error e => .error e
        | .ok more => .ok (p.1 ++ more)

/-- The list of corpus lines processed by a pass over `files` with document cap
`cap`, in processing order. -/
def tryLines (cap : Nat) (files : List (List String)) : Except PyErr (List String) :=
  tryGo cap files false 0

/-- Model of `get_words_and_documents(PathList, iMaxAbstracts, iMinWordLength, StopWords)`:
traverse the files, fold the per-line indexing step over the processed lines,
and return `(sorted(Words), Docs)`. -/
def get_words_and_documents (files : List (List String)) (cap minLen : Nat)
    (stop : List String) : Except PyErr (List String × List String) :=
  match tryLines cap files with
  | .error e => .error e
  | .ok ls =>
    match ls.foldlM (lineStep minLen stop) ([], []) with
    | .error e => .error e
    | .ok r => .ok (sortStrings r.1, r.2)

/-- The dictionary comprehension `{v: i for i, v in enumerate(l)}`: the last
index of `v` in `l` wins.  Recursion prefers the result found in the tail. -/
def dictIndexFrom (s : String) : List String → Nat → Option Nat
  | [], _ => none
  | x :: xs, i =>
    match dictIndexFrom s xs (i + 1) with
    | some j => some j
    | none => if x = s then some i else none

/-- Lookup in `{v: i for i, v in enumerate(l)}`. -/
def dictIndex (l : List String) (s : String) : Option Nat := dictIndexFrom s l 0

/-- The sparse matrix under construction, as the list of single-cell
assignments performed so far, most recent first (a later assignment to the same
cell shadows an earlier one, as in `lil_matrix` item assignment). -/
abbrev Mat := List ((Nat × Nat) × Nat)

/-- Read a cell of the assignment list; unassigned cells are 0. -/
def mget (m : Mat) (r c : Nat) : Nat :=
  match m.find? (fun e => decide (e.1 = (r, c))) with
  | some e => e.2
  | none => 0

/-- Processing of one line by the matrix pass: tokenize, keep the tokens that
are in `WordIndex`, count each kept word type, and assign
`matrixWordDoc[WordIndex[w], DocIndex[Values[0]]] = count`.  The dict lookups
raise `KeyError` when the key is absent; `DocIndex` is consulted once per
counted word type, so a line with no counted words performs no lookup. -/
def matStep (wIx dIx : String → Option Nat) (m : Mat) (line : String) :
    Except PyErr Mat :=
  let toks := pySplit line
  let counted := toks.tail.filter (fun t => (wIx t).isSome)
  (firstDedup counted).foldlM
    (fun acc w =>
      match wIx w with
      | none => .error .keyError
      | some r =>
        match dIx (toks.headD "") with
        | none => .error .keyError
        | some c => .ok (((r, c), counted.count w) :: acc))
    m

/-- Model of `build_matrix(PathList, WordsInCorpus, Docs, iMaxAbstracts)`: build the
index dictionaries, traverse the same files with the same cap logic as pass 1,
and fold the per-line assignment step.  (The final `.tocsc()` conversion only
changes the storage format, not the cell values.) -/
def build_matrix (files : List (List String)) (wordsInCorpus docs : List String)
    (cap : Nat) : Except PyErr Mat :=
  match tryLines cap files with
  | .error e => .error e
  | .ok ls => ls.foldlM (matStep (dictIndex wordsInCorpus) (dictIndex docs)) []

/-- Sum of row `r` of the matrix over columns `0..nCols-1`. -/
def rowSum (m : Mat) (r nCols : Nat) : Nat :=
  ((List.range nCols).map (fun c => mget m r c)).sum

/-- Sum of column `c` of the matrix over rows `0..nRows-1`. -/
def colSum (m : Mat) (c nRows : Nat) : Nat :=
  ((List.range nRows).map (fun r => mget m r c)).sum

/-- The document ID field of a corpus line (`Values[0]`). -/
def lineId (l : String) : String := (pySplit l).headD ""

/-- The token fields of a corpus line (`Values[1:]`). -/
def lineToks (l : String) : List String := (pySplit l).tail

/-- Total occurrence count of word `w` across the token fields of the processed
lines (the spec's "total occurrence count across all documents"). -/
def totalOccurrences (w : String) (ls : List String) : Nat :=
  (ls.map (fun l => (lineToks l).count w)).sum

/-- Number of vocabulary-word occurrences among the token fields of one line
(the spec's "count of vocabulary words it contains"). -/
def vocabOccurrences (ws : List String) (l : String) : Nat :=
  ((lineToks l).filter (fun t => decide (t ∈ ws))).length

/-- First character is a hyphen (`sToken[0] == '-'` for a nonempty token). -/
def headHyphenB (t : String) : Bool :=
  match t.data with
  | [] => false
  | c :: _ => c == '-'

/-- The five filters of the indexing pass as a pointwise test, with the numeric
filter exactly as the code evaluates it (`numStartB`). -/
def keptTokenB (minLen : Nat) (stop : List String) (t : String) : Bool :=
  !(decide (t ∈ stop)) && !(containsDoubleHyphenB t.data) && !(headHyphenB t) &&
    !(numStartB t) && decide (minLen ≤ t.length)

/-- The sorted list of the distinct tokens, drawn from the non-ID fields of the
processed lines, that pass the five filters as the code applies them. -/
def acceptedVocabulary (minLen : Nat) (stop : List String) (ls : List String) :
    List String :=
  sortStrings (firstDedup (((ls.map lineToks).flatten).filter (keptTokenB minLen stop)))

/-- The combined removal test of the four non-stopword filters, as a Bool on
nonempty tokens (for which `badToken` returns `.ok` of this value). -/
def badFlagB (minLen : Nat) (t : String) : Bool :=
  containsDoubleHyphenB t.data || headHyphenB t || numStartB t ||
    decide (t.length < minLen)

/-- The tokens of a line that `build_matrix` counts: those found in `WordIndex`. -/
def lineCounted (ws : List String) (l : String) : List String :=
  (lineToks l).filter (fun t => (dictIndex ws t).isSome)

/-- Modelled from the spec's words: a token "matches the numeric pattern
(optional sign, digits/periods/commas, optional trailing percent sign)" when
the whole token has that shape — an optional sign, then one or more characters
from `[0-9.,]`, then an optional `%`, and nothing else. -/
def numTailB : List Char → Bool
  | [] => true
  | ['%'] => true
  | c :: rest => isNumC c && numTailB rest

/-- Modelled from the spec's words: the body of the whole-token numeric
pattern, one or more `[0-9.,]` characters with an optional trailing `%`. -/
def numBody1 : List Char → Bool
  | [] => false
  | c :: rest => isNumC c && numTailB rest

/-- Modelled from the spec's words: whole-token numeric-pattern test. -/
def specNumericTokenB (t : String) : Bool :=
  match t.data with
  | [] => false
  | c :: rest =>
    if c == '+' || c == '-' then numBody1 rest else numBody1 (c :: rest)

/-- Modelled from the spec's words: the vocabulary claimed by C2 — the sorted
distinct tokens of the processed lines passing the five filters with the
numeric filter read as a whole-token pattern. -/
def specVocabularyFullNumeric (minLen : Nat) (stop : List String)
    (ls : List String) : List String :=
  sortStrings (firstDedup (((ls.map lineToks).flatten).filter (fun t =>
    !(decide (t ∈ stop)) && !(containsDoubleHyphenB t.data) && !(headHyphenB t) &&
      !(specNumericTokenB t) && decide (minLen ≤ t.length))))

end BuildTopicModel

namespace AbstractsFromIDs

/-- State of one archive file as seen by `BuildSubset`: absent (`open` raises
`FileNotFoundError`), present but unreadable (`open` raises `PermissionError`,
which is uncaught, or `read` raises, which hits the `exit(1)` handler — both
terminate the run), or readable with the given contents. -/
inductive FileState where
  | missing
  | unreadable
  | content (s : String)

/-- The fatal outcome of a run (uncaught exception or `exit(1)`). -/
inductive Fatal where
  | fatal
  deriving DecidableEq, Repr

/-- Model of `str(PubMedID).lower()` followed by stripping a leading `pmid` tag
(`if sPubMedID.startswith('pmid'): sPubMedID = sPubMedID[4:]`). -/
def stripPMID : List Char → List Char
  | 'p' :: 'm' :: 'i' :: 'd' :: rest => rest
  | cs => cs

/-- The normalized identifier digits used for shard and file names. -/
def normalizeID (id : String) : List Char := stripPMID (pyLower id.data)

/-- Shard derivation: `sSubDir = sPubMedID[0:-4]` then left-pad with zeros to
length 4 (`while len(sSubDir) < 4: sSubDir = '0' + sSubDir`). -/
def subdirOf (spmid : List Char) : List Char :=
  let s := spmid.take (spmid.length - 4)
  List.replicate (4 - s.length) '0' ++ s

/-- Model of `sTxtFName = sPubMedDir + sSubDir + "/PMID" + sPubMedID + ".txt"`. -/
def fileNameOf (dir : String) (spmid : List Char) : String :=
  dir ++ String.mk (subdirOf spmid) ++ "/PMID" ++ String.mk spmid ++ ".txt"

/-- The error-channel message for a missing archive file. -/
def msgMissing (spmid : List Char) : String :=
  "Unable to find file for PubMed ID " ++ String.mk spmid ++
    "; possibly newer than newest downloaded abstract.  Ignoring.\n"

/-- The error-channel message for an empty archive file. -/
def msgEmpty (dir : String) (spmid : List Char) : String :=
  "Found empty file " ++ fileNameOf dir spmid ++ "\n"

/-- The error-channel message written when the abstract cap stops the run. -/
def msgStopping (iRow : Nat) : String :=
  "Stopping at " ++ toString iRow ++ "th abstract.\n"

/-- The per-identifier loop of `BuildSubset`: for each identifier (with its
0-based row number), stop once `iRow >= iMaxAbstracts`; otherwise derive the
archive file name and open it.  A missing file is reported and skipped; an
unreadable file is fatal for the whole run; an empty file (after
`read().lower().strip()`) is reported and skipped; otherwise the tokenized
line is emitted.  A non-numeric identifier makes `int(sPubMedID)` raise an
uncaught `ValueError`, also fatal.  Returns (output lines, error messages). -/
def bsGo (dir : String) (fs : String → FileState) (iMax : Nat) :
    List String → Nat → Except Fatal (List String × List String)
  | [], _ => .ok ([], [])
  | id :: rest, iRow =>
    if iMax ≤ iRow then .ok ([], [msgStopping iRow])
    else
      let sp := normalizeID id
      match fs (fileNameOf dir sp) with
      | .missing =>
        match bsGo dir fs iMax rest (iRow + 1) with
        | .error e => .error e
        | .ok r => .ok (r.1, msgMissing sp :: r.2)
      | .unreadable => .error .fatal
      | .content s =>
        let data := pyStrip (pyLower s.data)
        if data.isEmpty then
          match bsGo dir fs iMax rest (iRow + 1) with
          | .error e => .error e
          | .ok r => .ok (r.1, msgEmpty dir sp :: r.2)
        else
          match parseNat? sp with
          | none => .error .fatal
          | some n =>
            match bsGo dir fs iMax rest (iRow + 1) with
            | .error e => .error e
            | .ok r =>
              .ok ((pad8 n ++ " " ++ joinSpace (findWordRuns data)) :: r.1, r.2)

/-- Model of `BuildSubset(DataFrame, sPubMedDir, strOut, strErr, iMaxAbstracts)` over
the identifier column of the data frame. -/
def BuildSubset (ids : List String) (dir : String) (fs : String → FileState)
    (iMax : Nat) : Except Fatal (List String × List String) :=
  bsGo dir fs iMax ids 0

end AbstractsFromIDs

namespace ImportAbstracts

/-- The index-ID derivation in `GetCmdLineParameters`: with no index file the
first ID is 1; with an existing index file the last line (or the dummy `'0'`
for an empty file) is split on tabs and its first field is parsed, the new
first ID being that value plus one.  A non-numeric field makes `int` raise
`ValueError`. -/
def initial_id (indexLines : Option (List String)) : Except PyErr Nat :=
  match indexLines with
  | none => .ok 1
  | some lines =>
    let lst := lines.getLastD "0"
    match parseNat? ((splitFields '\t' lst).headD "").data with
    | none => .error .valueError
    | some n => .ok (n + 1)

/-- Reader state of the record loop around `ProcessNextAbstract`:
waiting for a (nonempty) title line, holding a title, or holding a title and an
authors line. -/
inductive ImpState where
  | seekTitle
  | haveTitle (title : String)
  | haveTA (title authors : String)

/-- Result of an import run: index records `(ID, authors, title)`, corpus
lines, error-channel messages, and the next unused ID. -/
structure ImpResult where
  recs : List (Nat × String × String)
  corpus : List String
  errs : List String
  finalID : Nat

/-- The stderr message for an incomplete (empty-field) record. -/
def msgIncomplete (authors title text : String) : String :=
  "Found incomplete abstract; authors = '" ++ authors ++ "', title = '" ++
    title ++ "', text = '" ++ text ++ "'.  Skipping."

/-- The corpus line `"%i %s" % (iID, " ".join(sText.split()))`. -/
def corpusLine (iID : Nat) (text : String) : String :=
  toString iID ++ " " ++ joinSpace (wsFields text.data)

/-- The import loop: repeated `ProcessNextAbstract` calls until EOF.  Each call
skips blank lines, takes a title, then reads the next two lines as authors and
text (at EOF `readline` yields the empty string).  A record with an empty field
is reported and skipped without consuming an ID; a complete record emits an
index record and a corpus line and increments the ID. -/
def importGo (iID : Nat) (st : ImpState) : List String → ImpResult
  | [] =>
    match st with
    | .seekTitle => ⟨[], [], [], iID⟩
    | .haveTitle t => ⟨[], [], [msgIncomplete "" t ""], iID⟩
    | .haveTA t a => ⟨[], [], [msgIncomplete a t ""], iID⟩
  | l :: rest =>
    match st with
    | .seekTitle =>
      let t := String.mk (pyStrip l.data)
      if t = "" then importGo iID .seekTitle rest
      else importGo iID (.haveTitle t) rest
    | .haveTitle t => importGo iID (.haveTA t (String.mk (pyStrip l.data))) rest
    | .haveTA t a =>
      let x := String.mk (pyStrip l.data)
      if a = "" || x = "" then
        let r := importGo iID .seekTitle rest
        ⟨r.recs, r.corpus, msgIncomplete a t x :: r.errs, r.finalID⟩
      else
        let r := importGo (iID + 1) .seekTitle rest
        ⟨(iID, a, t) :: r.recs, corpusLine iID x :: r.corpus, r.errs, r.finalID⟩

/-- A whole import run over the input lines, starting from the derived ID. -/
def importRun (iID : Nat) (input : List String) : ImpResult :=
  importGo iID .seekTitle input

end ImportAbstracts

namespace PreparePubmedSubset

/-- An abstract file of the shard tree: the numeric identifier embedded in its
name (`int(stem.lstrip('PMID'))`) and its contents. -/
structure PFile where
  pmid : Nat
  content : String

/-- Order on files within a shard: `sorted(key=lambda x: int(x.stem.lstrip('PMID')))`. -/
def fileLe (a b : PFile) : Prop := a.pmid ≤ b.pmid

instance : DecidableRel fileLe :=
  fun a b => inferInstanceAs (Decidable (a.pmid ≤ b.pmid))

/-- Order on shard directories: `sorted` on their names. -/
def shardLe (a b : String × List PFile) : Prop := strLeB a.1 b.1 = true

instance : DecidableRel shardLe :=
  fun a b => inferInstanceAs (Decidable (strLeB a.1 b.1 = true))

/-- The global traversal order of `build_subset`: shard directories in
lexicographic name order, and within each shard the files in numeric-identifier
order. -/
def globalFiles (shards : List (String × List PFile)) : List PFile :=
  ((List.insertionSort shardLe shards).map
      (fun p => List.insertionSort fileLe p.2)).flatten

/-- Model of `Intervals = [iNth * iDenominator // iNumerator for iNth in range(iNumerator)]`. -/
def intervalsOf (numer denom : Nat) : List Nat :=
  (List.range numer).map (fun i => i * denom / numer)

/-- Model of `read().lower().strip()` of a file's contents. -/
def trimmedContent (f : PFile) : List Char := pyStrip (pyLower f.content.data)

/-- The output line for one retained file:
`'{:08d} {}'.format(int(sPubMedID), ' '.join(Tokens))`. -/
def renderFile (f : PFile) : String :=
  pad8 f.pmid ++ " " ++ joinSpace (findWordRuns (trimmedContent f))

/-- The file loop of `build_subset`: increment the running global counter
`iFilesInAll` for every file, keep the file when `iFilesInAll % iDenominator`
lies in `Intervals`, and of the kept files emit a line unless the contents are
empty after `lower().strip()`. -/
def subsetGo (denom : Nat) (ivs : List Nat) : List PFile → Nat → List String
  | [], _ => []
  | f :: rest, count =>
    let c := count + 1
    if decide ((c % denom) ∈ ivs) then
      if (trimmedContent f).isEmpty then subsetGo denom ivs rest c
      else renderFile f :: subsetGo denom ivs rest c
    else subsetGo denom ivs rest c

/-- Model of `build_subset(sRootDir, iNumerator, iDenominator, strOut)` over the shard
tree, returning the emitted output lines. -/
def build_subset (shards : List (String × List PFile)) (numer denom : Nat) :
    List String :=
  subsetGo denom (intervalsOf numer denom) (globalFiles shards) 0

end PreparePubmedSubset



/-! ### General lemmas about the string order and the set models -/

theorem string_eq_of_data {a b : String} (h : a.data = b.data) : a = b := by
  cases a
  cases b
  cases h
  rfl

theorem string_data_ne_nil {t : String} (h : t ≠ "") : t.data ≠ [] := by
  intro hd
  exact h (string_eq_of_data hd)

theorem strLtB_irrefl : ∀ as : List Char, strLtB as as = false := by
  intro as
  induction as with
  | nil => rfl
  | cons a as ih => simp [strLtB, Nat.lt_irrefl, ih]

theorem strLtB_trans (as : List Char) :
    ∀ bs cs, strLtB as bs = true → strLtB bs cs = true → strLtB as cs = true := by
  induction as with
  | nil =>
    intro bs cs h1 h2
    cases bs with
    | nil => simp [strLtB] at h1
    | cons b bs =>
      cases cs with
      | nil => simp [strLtB] at h2
      | cons c cs => simp [strLtB]
  | cons a as ih =>
    intro bs cs h1 h2
    cases bs with
    | nil => simp [strLtB] at h1
    | cons b bs =>
      cases cs with
      | nil => simp [strLtB] at h2
      | cons c cs =>
        simp only [strLtB] at h1 h2 ⊢
        split_ifs at h1 h2 ⊢ <;>
          first
            | rfl
            | exact ih bs cs h1 h2
            | exact absurd h1 (by decide)
            | exact absurd h2 (by decide)
            | (exfalso; omega)

theorem strLtB_asymm {as bs : List Char} (h : strLtB as bs = true) :
    strLtB bs as = false := by
  by_contra hc
  have h2 : strLtB bs as = true := by
    cases hx : strLtB bs as with
    | true => rfl
    | false => exact absurd hx hc
  have := strLtB_trans as bs as h h2
  rw [strLtB_irrefl] at this
  exact Bool.false_ne_true this

theorem strLtB_trichotomy (as : List Char) :
    ∀ bs, strLtB as bs = true ∨ as = bs ∨ strLtB bs as = true := by
  induction as with
  | nil =>
    intro bs
    cases bs with
    | nil => right; left; rfl
    | cons b bs => left; rfl
  | cons a as ih =>
    intro bs
    cases bs with
    | nil => right; right; rfl
    | cons b bs =>
      rcases Nat.lt_trichotomy a.toNat b.toNat with hab | hab | hab
      · left; simp [strLtB, hab]
      · have hc : a = b := Char.ext (UInt32.toNat.inj hab)
        subst hc
        rcases ih bs with h | h | h
        · left; simp [strLtB, Nat.lt_irrefl, h]
        · right; left; rw [h]
        · right; right; simp [strLtB, Nat.lt_irrefl, h]
      · right; right; simp [strLtB, hab, Nat.lt_asymm hab]

theorem strLe_total : ∀ a b : String, strLe a b ∨ strLe b a := by
  intro a b
  unfold strLe strLeB
  rcases strLtB_trichotomy a.data b.data with h | h | h
  · left; rw [strLtB_asymm h]; rfl
  · left; rw [h, strLtB_irrefl]; rfl
  · right; rw [strLtB_asymm h]; rfl

theorem strLtB_eq_true_of_ne_false {as bs : List Char} (h : ¬strLtB as bs = false) :
    strLtB as bs = true := by
  cases hx : strLtB as bs with
  | true => rfl
  | false => exact absurd hx h

theorem strLe_trans : ∀ a b c : String, strLe a b → strLe b c → strLe a c := by
  intro a b c h1 h2
  unfold strLe strLeB at h1 h2 ⊢
  rw [Bool.not_eq_true'] at h1 h2
  rw [Bool.not_eq_true']
  by_contra hc
  have hca : strLtB c.data a.data = true := strLtB_eq_true_of_ne_false hc
  rcases strLtB_trichotomy c.data b.data with h | h | h
  · rw [h] at h2; exact Bool.noConfusion h2
  · rw [h] at hca; rw [hca] at h1; exact Bool.noConfusion h1
  · have := strLtB_trans b.data c.data a.data h hca
    rw [this] at h1
    exact Bool.noConfusion h1

theorem strLe_antisymm : ∀ a b : String, strLe a b → strLe b a → a = b := by
  intro a b h1 h2
  unfold strLe strLeB at h1 h2
  rw [Bool.not_eq_true'] at h1 h2
  rcases strLtB_trichotomy a.data b.data with h | h | h
  · rw [h] at h2; exact absurd h2 Bool.noConfusion
  · exact string_eq_of_data h
  · rw [h] at h1; exact absurd h1 Bool.noConfusion

theorem sortStrings_perm (l : List String) : (sortStrings l).Perm l :=
  List.perm_insertionSort strLe l

theorem sortStrings_mem (x : String) (l : List String) :
    x ∈ sortStrings l ↔ x ∈ l :=
  (sortStrings_perm l).mem_iff

theorem sortStrings_sorted (l : List String) : List.Sorted strLe (sortStrings l) := by
  haveI : IsTotal String strLe := ⟨strLe_total⟩
  haveI : IsTrans String strLe := ⟨strLe_trans⟩
  exact List.sorted_insertionSort strLe l

theorem sortStrings_nodup {l : List String} (h : l.Nodup) : (sortStrings l).Nodup :=
  ((sortStrings_perm l).symm).nodup h

theorem sortStrings_eq_of_perm {l1 l2 : List String} (h : l1.Perm l2) :
    sortStrings l1 = sortStrings l2 := by
  haveI : IsAntisymm String strLe := ⟨strLe_antisymm⟩
  exact List.eq_of_perm_of_sorted
    (((sortStrings_perm l1).trans h).trans (sortStrings_perm l2).symm)
    (sortStrings_sorted l1) (sortStrings_sorted l2)

theorem firstDedupAux_mem (x : String) :
    ∀ (l seen : List String), x ∈ firstDedupAux seen l ↔ x ∈ l ∧ x ∉ seen := by
  intro l
  induction l with
  | nil => intro seen; simp [firstDedupAux]
  | cons y ys ih =>
    intro seen
    by_cases hy : y ∈ seen
    · rw [firstDedupAux, if_pos hy, ih]
      constructor
      · rintro ⟨hx, hs⟩; exact ⟨List.mem_cons_of_mem y hx, hs⟩
      · rintro ⟨hx, hs⟩
        rcases List.mem_cons.mp hx with rfl | hx
        · exact absurd hy hs
        · exact ⟨hx, hs⟩
    · rw [firstDedupAux, if_neg hy]
      constructor
      · intro hx
        rcases List.mem_cons.mp hx with rfl | hx
        · exact ⟨List.mem_cons_self x ys, hy⟩
        · rcases (ih (y :: seen)).mp hx with ⟨h1, h2⟩
          refine ⟨List.mem_cons_of_mem y h1, fun hs => h2 (List.mem_cons_of_mem y hs)⟩
      · rintro ⟨hx, hs⟩
        rcases List.mem_cons.mp hx with rfl | hx
        · exact List.mem_cons_self x _
        · by_cases hxy : x = y
          · subst hxy; exact List.mem_cons_self x _
          · exact List.mem_cons_of_mem y ((ih (y :: seen)).mpr
              ⟨hx, by simp [List.mem_cons, hxy, hs]⟩)

theorem firstDedup_mem (x : String) (l : List String) :
    x ∈ firstDedup l ↔ x ∈ l := by
  rw [firstDedup, firstDedupAux_mem]
  simp

theorem firstDedupAux_nodup : ∀ (l seen : List String), (firstDedupAux seen l).Nodup := by
  intro l
  induction l with
  | nil => intro seen; simp [firstDedupAux]
  | cons y ys ih =>
    intro seen
    rw [firstDedupAux]
    split_ifs with hy
    · exact ih seen
    · refine List.nodup_cons.mpr ⟨?_, ih (y :: seen)⟩
      intro hmem
      exact ((firstDedupAux_mem y ys (y :: seen)).mp hmem).2 (List.mem_cons_self y seen)

theorem firstDedup_nodup (l : List String) : (firstDedup l).Nodup :=
  firstDedupAux_nodup l []

/-! ### Lemmas about the token filter of the indexing pass -/

namespace BuildTopicModel

theorem badToken_empty (minLen : Nat) : badToken minLen "" = .error .indexError := rfl

theorem badToken_of_ne_nil (minLen : Nat) {t : String} (h : t.data ≠ []) :
    badToken minLen t = .ok (badFlagB minLen t) := by
  simp only [badToken, badFlagB, headHyphenB]
  split_ifs with hd
  · simp [hd]
  · rw [Bool.not_eq_true] at hd
    cases ht : t.data with
    | nil => exact absurd ht h
    | cons c cs =>
      rw [ht] at hd
      rw [hd]
      simp

theorem filterBad_mem_empty (minLen : Nat) :
    ∀ l : List String, "" ∈ l → filterBad minLen l = .error .indexError := by
  intro l
  induction l with
  | nil => intro h; simp at h
  | cons t rest ih =>
    intro h
    rcases List.mem_cons.mp h with he | hmem
    · rw [← he]
      simp [filterBad, badToken_empty]
    · by_cases ht : t.data = []
      · have he2 : t = "" := string_eq_of_data ht
        rw [he2]
        simp [filterBad, badToken_empty]
      · rw [filterBad, badToken_of_ne_nil minLen ht, ih hmem]

theorem filterBad_ok (minLen : Nat) :
    ∀ (l ks : List String), filterBad minLen l = .ok ks →
      (∀ t ∈ l, t.data ≠ []) ∧ ks = l.filter (fun t => !(badFlagB minLen t)) := by
  intro l
  induction l with
  | nil =>
    intro ks h
    rw [filterBad] at h
    cases h
    exact ⟨by simp, rfl⟩
  | cons t rest ih =>
    intro ks h
    by_cases ht : t.data = []
    · have he : t = "" := string_eq_of_data ht
      rw [he] at h
      simp [filterBad, badToken_empty] at h
    · rw [filterBad, badToken_of_ne_nil minLen ht] at h
      cases hr : filterBad minLen rest with
      | error e => rw [hr] at h; cases h
      | ok ks2 =>
        rw [hr] at h
        obtain ⟨h1, h2⟩ := ih ks2 hr
        cases h
        refine ⟨?_, ?_⟩
        · intro u hu
          rcases List.mem_cons.mp hu with he | hu
          · rw [he]; exact ht
          · exact h1 u hu
        · rw [h2, List.filter_cons]
          by_cases hb : badFlagB minLen t
          · simp [hb]
          · simp [hb]

end BuildTopicModel

/-! ### Claim theorems: C10, C6, C4, C3, and the counterexamples for C1, C2, C8 -/

namespace BuildTopicModel

theorem gwad_eq {files : List (List String)} {cap : Nat} {ls : List String}
    (minLen : Nat) (stop : List String) (h : tryLines cap files = .ok ls) :
    get_words_and_documents files cap minLen stop =
      match ls.foldlM (lineStep minLen stop) ([], []) with
      | .error e => .error e
      | .ok r => .ok (sortStrings r.1, r.2) := by
  unfold get_words_and_documents
  rw [h]

theorem gwad_eq_error {files : List (List String)} {cap : Nat} {e : PyErr}
    (minLen : Nat) (stop : List String) (h : tryLines cap files = .error e) :
    get_words_and_documents files cap minLen stop = .error e := by
  unfold get_words_and_documents
  rw [h]

theorem build_matrix_eq {files : List (List String)} {cap : Nat} {ls : List String}
    (ws ds : List String) (h : tryLines cap files = .ok ls) :
    build_matrix files ws ds cap =
      ls.foldlM (matStep (dictIndex ws) (dictIndex ds)) [] := by
  unfold build_matrix
  rw [h]

/-- C10: any corpus line with two consecutive spaces between fields (so that
splitting on single spaces yields an empty candidate token) makes the filter
expression `sToken[0]` evaluate on the empty string, provided the empty string
is not a stopword, and `get_words_and_documents` aborts with `IndexError`
instead of completing the pass. -/
theorem c10_empty_token_index_error (line : String) (cap minLen : Nat)
    (stop ws ds : List String)
    (h1 : "" ∈ (pySplit line).tail) (h2 : "" ∉ stop) :
    lineStep minLen stop (ws, ds) line = .error .indexError ∧
    get_words_and_documents [[line]] cap minLen stop = .error .indexError := by
  have hstep : ∀ acc : List String × List String,
      lineStep minLen stop acc line = .error .indexError := by
    intro acc
    have hcand : "" ∈ sortStrings
        ((firstDedup (pySplit line).tail).filter (fun t => !(decide (t ∈ stop)))) := by
      rw [sortStrings_mem, List.mem_filter, firstDedup_mem]
      exact ⟨h1, by simp [h2]⟩
    have herr := filterBad_mem_empty minLen _ hcand
    simp only [lineStep]
    rw [herr]
  refine ⟨hstep (ws, ds), ?_⟩
  have htl : tryLines cap [[line]] = .ok [line] := by
    simp [tryLines, tryGo, lineLoop, Nat.not_lt_zero]
  rw [gwad_eq minLen stop htl]
  have hf : List.foldlM (lineStep minLen stop) ([], []) [line]
      = .error .indexError := by
    rw [List.foldlM_cons, hstep ([], [])]
    rfl
  rw [hf]

/-- C10 witness: the concrete line `"5 ab  cd"` (double space between fields)
with an empty stopword set satisfies the hypotheses, and the pass aborts. -/
theorem c10_empty_token_index_error_witness :
    ("" ∈ (pySplit "5 ab  cd").tail ∧ "" ∉ ([] : List String)) ∧
    (lineStep 2 [] ([], []) "5 ab  cd" = .error .indexError ∧
      get_words_and_documents [["5 ab  cd"]] 10 2 [] = .error .indexError) :=
  ⟨⟨by decide, by decide⟩,
    c10_empty_token_index_error "5 ab  cd" 10 2 [] [] [] (by decide) (by decide)⟩

/-- C6: an empty corpus line does not crash the indexing pass: in any state the
per-line step appends the empty string as that line's document ID (consuming a
document slot) and contributes no tokens to the vocabulary; a concrete run over
a corpus containing an empty line within the cap confirms the end-to-end
behavior. -/
theorem c6_empty_line_slot :
    (∀ (minLen : Nat) (stop ws ds : List String),
      lineStep minLen stop (ws, ds) "" = .ok (ws, ds ++ [""])) ∧
    get_words_and_documents [["5 aa", "", "7 bb"]] 10 2 [] =
      .ok (["aa", "bb"], ["5", "", "7"]) := by
  constructor
  · intro minLen stop ws ds
    have he : lineStep minLen stop (ws, ds) "" = .ok (ws ++ [], ds ++ [""]) := rfl
    rw [he, List.append_nil]
  · rfl

/-- C4: determinism — two runs of `get_words_and_documents` over the same file
list and parameters return identical results; in particular the two vocabulary
lists and the two document-axis lists are equal as lists (element-by-element,
in order).  The only set-iteration order the Python code observes is wrapped in
`sorted(...)`, which the embedding reflects, so the function is a deterministic
map of its inputs. -/
theorem c4_determinism (files : List (List String)) (cap minLen : Nat)
    (stop : List String) (r1 r2 : Except PyErr (List String × List String))
    (h1 : r1 = get_words_and_documents files cap minLen stop)
    (h2 : r2 = get_words_and_documents files cap minLen stop) :
    r1 = r2 ∧
      ∀ ws1 ds1 ws2 ds2, r1 = .ok (ws1, ds1) → r2 = .ok (ws2, ds2) →
        ws1 = ws2 ∧ ds1 = ds2 := by
  subst h1
  subst h2
  refine ⟨rfl, ?_⟩
  intro ws1 ds1 ws2 ds2 e1 e2
  rw [e1] at e2
  simp only [Except.ok.injEq, Prod.mk.injEq] at e2
  exact ⟨e2.1, e2.2⟩

/-- C4 witness: the two hypotheses at a concrete corpus, discharged by `rfl`. -/
theorem c4_determinism_witness :
    (get_words_and_documents [["5 aa"]] 10 2 [] = get_words_and_documents [["5 aa"]] 10 2 [] ∧
      get_words_and_documents [["5 aa"]] 10 2 [] = get_words_and_documents [["5 aa"]] 10 2 []) ∧
    (get_words_and_documents [["5 aa"]] 10 2 [] = get_words_and_documents [["5 aa"]] 10 2 [] ∧
      ∀ ws1 ds1 ws2 ds2,
        get_words_and_documents [["5 aa"]] 10 2 [] = .ok (ws1, ds1) →
        get_words_and_documents [["5 aa"]] 10 2 [] = .ok (ws2, ds2) →
        ws1 = ws2 ∧ ds1 = ds2) :=
  ⟨⟨rfl, rfl⟩, c4_determinism [["5 aa"]] 10 2 [] _ _ rfl rfl⟩

/-- C3: evaluation at the failing input.  With cap 1 and a single file of two
lines, `get_words_and_documents` returns a document axis of length 2: the inner
loop processes line indices `0..cap` inclusive (`break` fires only at index
`cap + 1`), so the axis exceeds the configured cap, contradicting both the
claim and the code's own description of `-n` as the maximum number of abstracts
to read.  (Across file boundaries the counter is additionally reassigned to the
previous file's last index instead of the next unused index, admitting one
further extra line per file.) -/
theorem c3_cap_exceeded_evaluation :
    get_words_and_documents [["1 aa", "2 bb"]] 1 2 [] = .ok (["aa", "bb"], ["1", "2"]) ∧
    get_words_and_documents [["1 a1"], ["2 b2"], ["3 c3"]] 0 2 []
      = .ok (["a1", "b2", "c3"], ["1", "2", "3"]) ∧
    ¬((["1", "2"] : List String).length ≤ 1) ∧
    ¬((["1", "2", "3"] : List String).length ≤ 0) :=
  ⟨rfl, rfl, by decide, by decide⟩

/-- C2 counterexample: on the corpus line `"9 3abc"` the pass processes that
line and returns an empty vocabulary, because `re.match` of the unanchored,
repetition-free numeric regex removes `"3abc"`, while the claimed five-filter
vocabulary (numeric pattern read as the whole token: optional sign,
digits/periods/commas, optional trailing percent) keeps `"3abc"`. -/
theorem c2_counterexample_numeric_filter :
    tryLines 5 [["9 3abc"]] = .ok ["9 3abc"] ∧
    get_words_and_documents [["9 3abc"]] 5 2 [] = .ok ([], ["9"]) ∧
    specVocabularyFullNumeric 2 [] ["9 3abc"] = ["3abc"] ∧
    ([] : List String) ≠ ["3abc"] :=
  ⟨rfl, rfl, by decide, by decide⟩

/-- C1 counterexample: with a duplicate document ID the row and column sums
break.  On the corpus `[["7 aa", "7 aa"]]` pass 1 yields vocabulary `["aa"]`
and axis `["7", "7"]`; `build_matrix` collapses both lines onto the column of
the ID's last axis position and overwrites the cell, so row 0 sums to 1 while
`"aa"` occurs 2 times across the processed documents, and column 0 sums to 0
while document 0 contains 1 vocabulary word. -/
theorem c1_counterexample_duplicate_ids :
    get_words_and_documents [["7 aa", "7 aa"]] 5 2 [] = .ok (["aa"], ["7", "7"]) ∧
    tryLines 5 [["7 aa", "7 aa"]] = .ok ["7 aa", "7 aa"] ∧
    build_matrix [["7 aa", "7 aa"]] ["aa"] ["7", "7"] 5
      = .ok [((0, 1), 1), ((0, 1), 1)] ∧
    rowSum [((0, 1), 1), ((0, 1), 1)] 0 2 = 1 ∧
    totalOccurrences "aa" ["7 aa", "7 aa"] = 2 ∧
    (1 : Nat) ≠ 2 ∧
    colSum [((0, 1), 1), ((0, 1), 1)] 0 1 = 0 ∧
    vocabOccurrences ["aa"] "7 aa" = 1 ∧
    (0 : Nat) ≠ 1 :=
  ⟨rfl, rfl, rfl, by decide, by decide, by decide, by decide, by decide, by decide⟩

end BuildTopicModel

/-- C8 counterexample: the importer continues from the ID on the *last line* of
the index file, not from the maximum ID in it.  On an index file whose lines
carry IDs 42 then 10, the next ID is 11, and the next valid record is assigned
11, not 43. -/
theorem c8_counterexample_last_not_max :
    ImportAbstracts.initial_id (some ["42\ta\tt", "10\tb\tu"]) = .ok 11 ∧
    (ImportAbstracts.importRun 11 ["T", "A", "X"]).recs = [(11, "A", "T")] ∧
    (11 : Nat) ≠ 42 + 1 :=
  ⟨rfl, rfl, by decide⟩

/-! ### C5: build_matrix has no capacity-exceeded failure mode -/

namespace BuildTopicModel

theorem tryGo_error (cap : Nat) :
    ∀ (files : List (List String)) (bound : Bool) (c : Nat) (e : PyErr),
      tryGo cap files bound c = .error e → e = .nameError := by
  intro files
  induction files with
  | nil => intro bound c e h; simp [tryGo] at h
  | cons f rest ih =>
    intro bound c e h
    cases f with
    | nil =>
      rw [tryGo] at h
      split_ifs at h with hc hb
      · exact ih bound c e h
      · injection h with h2
        exact h2.symm
    | cons l ls =>
      simp only [tryGo] at h
      split_ifs at h with hc
      cases hr : tryGo cap rest true (lineLoop cap (l :: ls) c).2 with
        | error e2 =>
          rw [hr] at h
          have h2 : (Except.error e2 : Except PyErr (List String)) = .error e := h
          injection h2 with h3
          rw [← h3]
          exact ih true _ e2 hr
        | ok more =>
          rw [hr] at h
          exact Except.noConfusion h

theorem foldlM_keyError {α : Type} (g : Mat → α → Except PyErr Mat)
    (hg : ∀ m a e, g m a = .error e → e = .keyError) :
    ∀ (l : List α) (m : Mat) (e : PyErr),
      List.foldlM g m l = .error e → e = .keyError := by
  intro l
  induction l with
  | nil =>
    intro m e h
    exact Except.noConfusion (show (Except.ok m : Except PyErr Mat) = .error e from h)
  | cons a rest ih =>
    intro m e h
    rw [List.foldlM_cons] at h
    cases hge : g m a with
    | error e2 =>
      rw [hge] at h
      have h2 : (Except.error e2 : Except PyErr Mat) = .error e := h
      injection h2 with h3
      rw [← h3]
      exact hg m a e2 hge
    | ok m2 =>
      rw [hge] at h
      have h2 : List.foldlM g m2 rest = .error e := h
      exact ih m2 e h2

theorem matStep_error (wIx dIx : String → Option Nat) :
    ∀ (m : Mat) (line : String) (e : PyErr),
      matStep wIx dIx m line = .error e → e = .keyError := by
  intro m line e h
  simp only [matStep] at h
  refine foldlM_keyError _ ?_ _ _ _ h
  intro m2 w e2 hg
  cases hw : wIx w with
  | none =>
    rw [hw] at hg
    have h2 : (Except.error PyErr.keyError : Except PyErr Mat) = .error e2 := hg
    injection h2 with h3
    exact h3.symm
  | some r =>
    rw [hw] at hg
    cases hd : dIx ((pySplit line).headD "") with
    | none =>
      rw [hd] at hg
      have h2 : (Except.error PyErr.keyError : Except PyErr Mat) = .error e2 := hg
      injection h2 with h3
      exact h3.symm
    | some cc =>
      rw [hd] at hg
      simp at hg

/-- C5: the matrix pass has no capacity check: its only failure modes are the
`NameError` of the shared traversal and the `KeyError` of the index lookups, so
it can never fail with the capacity-exceeded error that the claim requires;
resource exhaustion instead surfaces as an uncontrolled `MemoryError` crash,
as the code's own comments document. -/
theorem c5_no_capacity_error (files : List (List String)) (ws ds : List String)
    (cap : Nat) (e : PyErr) (h : build_matrix files ws ds cap = .error e) :
    e = .nameError ∨ e = .keyError := by
  unfold build_matrix at h
  cases ht : tryLines cap files with
  | error e2 =>
    rw [ht] at h
    have h2 : (Except.error e2 : Except PyErr Mat) = .error e := h
    injection h2 with h3
    left
    rw [← h3]
    exact tryGo_error cap files false 0 e2 ht
  | ok ls =>
    rw [ht] at h
    have h2 : List.foldlM (matStep (dictIndex ws) (dictIndex ds)) [] ls = .error e := h
    right
    exact foldlM_keyError _ (matStep_error _ _) ls [] e h2

/-- C5 witness: a concrete failing run of `build_matrix` (a `KeyError` from an
ID missing from the axis); its error is not a capacity error. -/
theorem c5_no_capacity_error_witness :
    build_matrix [["7 aa"]] ["aa"] [] 5 = .error .keyError ∧
    (PyErr.keyError = .nameError ∨ PyErr.keyError = .keyError) :=
  ⟨rfl, c5_no_capacity_error [["7 aa"]] ["aa"] [] 5 .keyError rfl⟩

end BuildTopicModel

/-! ### C7: per-identifier failure policy of BuildSubset -/

namespace AbstractsFromIDs

/-- C7: in `BuildSubset`, for an identifier whose row is below the cap: a
missing archive file is reported to the error channel and skipped while
processing of the remaining identifiers continues; a present but empty file is
reported and skipped likewise; a present but unreadable file terminates the
entire run fatally. -/
theorem c7_per_identifier_policy (dir : String) (fs : String → FileState)
    (iMax iRow : Nat) (id : String) (rest : List String) (h : iRow < iMax) :
    (fs (fileNameOf dir (normalizeID id)) = .missing →
      bsGo dir fs iMax (id :: rest) iRow =
        match bsGo dir fs iMax rest (iRow + 1) with
        | .error e => .error e
        | .ok r => .ok (r.1, msgMissing (normalizeID id) :: r.2)) ∧
    (∀ s, fs (fileNameOf dir (normalizeID id)) = .content s →
      pyStrip (pyLower s.data) = [] →
      bsGo dir fs iMax (id :: rest) iRow =
        match bsGo dir fs iMax rest (iRow + 1) with
        | .error e => .error e
        | .ok r => .ok (r.1, msgEmpty dir (normalizeID id) :: r.2)) ∧
    (fs (fileNameOf dir (normalizeID id)) = .unreadable →
      bsGo dir fs iMax (id :: rest) iRow = .error .fatal) := by
  have hle : ¬ iMax ≤ iRow := Nat.not_le.mpr h
  refine ⟨?_, ?_, ?_⟩
  · intro hm
    simp only [bsGo]
    rw [if_neg hle, hm]
  · intro s hc hdata
    have hstep : bsGo dir fs iMax (id :: rest) iRow =
        (if (pyStrip (pyLower s.data)).isEmpty then
          match bsGo dir fs iMax rest (iRow + 1) with
          | .error e => .error e
          | .ok r => .ok (r.1, msgEmpty dir (normalizeID id) :: r.2)
        else
          match parseNat? (normalizeID id) with
          | none => .error .fatal
          | some n =>
            match bsGo dir fs iMax rest (iRow + 1) with
            | .error e => .error e
            | .ok r =>
              .ok ((pad8 n ++ " " ++ joinSpace (findWordRuns (pyStrip (pyLower s.data)))) :: r.1,
                r.2)) := by
      simp only [bsGo]
      rw [if_neg hle, hc]
    rw [hstep, hdata]
    rfl
  · intro hu
    simp only [bsGo]
    rw [if_neg hle, hu]

/-- C7 witness: the missing-file clause at a concrete state, cap hypothesis
discharged; the single missing identifier is reported and the run returns
normally. -/
theorem c7_per_identifier_policy_witness :
    0 < 5 ∧
    BuildSubset ["7"] "r/" (fun _ => FileState.missing) 5 =
      .ok ([], [msgMissing ['7']]) := by
  refine ⟨by decide, ?_⟩
  have h := (c7_per_identifier_policy "r/" (fun _ => FileState.missing) 5 0 "7" []
    (by decide)).1 rfl
  unfold BuildSubset
  rw [h]
  rfl

end AbstractsFromIDs

/-! ### C8: sequential ID assignment of the bibliographic importer -/

namespace ImportAbstracts

theorem importGo_ids :
    ∀ (lines : List String) (st : ImpState) (iID : Nat),
      (importGo iID st lines).recs.map Prod.fst =
        List.range' iID (importGo iID st lines).recs.length ∧
      (importGo iID st lines).finalID = iID + (importGo iID st lines).recs.length := by
  intro lines
  induction lines with
  | nil =>
    intro st iID
    cases st <;> simp [importGo]
  | cons l rest ih =>
    intro st iID
    cases st with
    | seekTitle =>
      rw [importGo]
      split_ifs with ht
      · exact ih .seekTitle iID
      · exact ih (.haveTitle (String.mk (pyStrip l.data))) iID
    | haveTitle t =>
      rw [importGo]
      exact ih _ iID
    | haveTA t a =>
      rw [importGo]
      split_ifs with he
      · simpa using ih .seekTitle iID
      · have h2 := ih .seekTitle (iID + 1)
        constructor
        · simp only [List.map_cons, List.length_cons, h2.1]
          rfl
        · simp only [List.length_cons]
          have h3 := h2.2
          simp only [h3]
          omega

/-- C8 (amended): the importer's first ID is 1 when no index file exists and
(last-line ID)+1 when one does — the ID on the last line, not the maximum —
and every import run assigns consecutive IDs to exactly the valid records:
the emitted index records carry IDs `start, start+1, ...` in order, and the
final ID is `start` plus the number of valid records, so a dropped
(empty-field) record consumes no ID and the next valid record receives the ID
the dropped one would have received. -/
theorem c8_sequential_ids (ilines : List String) (n : Nat)
    (hn : parseNat? ((splitFields '\t' (ilines.getLastD "0")).headD "").data = some n)
    (input : List String) (start : Nat) :
    initial_id none = .ok 1 ∧
    initial_id (some ilines) = .ok (n + 1) ∧
    (importRun start input).recs.map Prod.fst =
      List.range' start (importRun start input).recs.length ∧
    (importRun start input).finalID =
      start + (importRun start input).recs.length := by
  refine ⟨rfl, ?_, (importGo_ids input .seekTitle start).1,
    (importGo_ids input .seekTitle start).2⟩
  have hred : initial_id (some ilines) =
      match parseNat? ((splitFields '\t' (ilines.getLastD "0")).headD "").data with
      | none => Except.error PyErr.valueError
      | some m => Except.ok (m + 1) := rfl
  rw [hred, hn]

/-- C8 witness: an index file whose last entry is ID 42 gives next ID 43; the
first (blank-authors) record of the input is dropped and the valid record
receives 43. -/
theorem c8_sequential_ids_witness :
    parseNat? ((splitFields '\t' ((["42\ta\tt"] : List String).getLastD "0")).headD "").data
      = some 42 ∧
    (initial_id none = .ok 1 ∧
      initial_id (some ["42\ta\tt"]) = .ok 43 ∧
      (importRun 43 ["T1", "", "X1", "", "", "T2", "A2", "X2"]).recs.map Prod.fst =
        List.range' 43 (importRun 43 ["T1", "", "X1", "", "", "T2", "A2", "X2"]).recs.length ∧
      (importRun 43 ["T1", "", "X1", "", "", "T2", "A2", "X2"]).finalID =
        43 + (importRun 43 ["T1", "", "X1", "", "", "T2", "A2", "X2"]).recs.length) :=
  ⟨rfl, c8_sequential_ids ["42\ta\tt"] 42 rfl ["T1", "", "X1", "", "", "T2", "A2", "X2"] 43⟩

end ImportAbstracts

/-! ### C9: the 1/1000 sampling ratio of prepare_pubmed_subset -/

namespace PreparePubmedSubset

theorem intervalsOf_one (denom : Nat) : intervalsOf 1 denom = [0] := by
  unfold intervalsOf
  have h : List.range 1 = [0] := rfl
  rw [h]
  simp

theorem subsetGo_eq_filter :
    ∀ (fs : List PFile) (c : Nat),
      (∀ f ∈ fs, ¬(trimmedContent f).isEmpty = true) →
      subsetGo 1000 [0] fs c =
        ((List.enumFrom (c + 1) fs).filter (fun p => decide (p.1 % 1000 = 0))).map
          (fun p => renderFile p.2) := by
  intro fs
  induction fs with
  | nil => intro c hne; simp [subsetGo]
  | cons f rest ih =>
    intro c hne
    have hf : ¬(trimmedContent f).isEmpty = true := hne f (List.mem_cons_self f rest)
    have hrest : ∀ g ∈ rest, ¬(trimmedContent g).isEmpty = true :=
      fun g hg => hne g (List.mem_cons_of_mem f hg)
    simp only [subsetGo]
    have henum : List.enumFrom (c + 1) (f :: rest)
        = (c + 1, f) :: List.enumFrom (c + 2) rest := rfl
    rw [henum, List.filter_cons]
    by_cases hsel : (c + 1) % 1000 = 0
    · rw [if_pos (by simp [hsel]), if_neg hf, ih (c + 1) hrest]
      have hguard : decide ((c + 1, f).1 % 1000 = 0) = true := by simp [hsel]
      rw [hguard]
      rfl
    · rw [if_neg (by simp [hsel]), ih (c + 1) hrest]
      have hguard : decide ((c + 1, f).1 % 1000 = 0) = false := by simp [hsel]
      rw [hguard]
      rfl

theorem subsetGo_len_1000 :
    ∀ (fs : List PFile) (c : Nat),
      (∀ f ∈ fs, ¬(trimmedContent f).isEmpty = true) →
      (subsetGo 1000 [0] fs c).length = (c + fs.length) / 1000 - c / 1000 := by
  intro fs
  induction fs with
  | nil => intro c hne; simp [subsetGo]
  | cons f rest ih =>
    intro c hne
    have hf : ¬(trimmedContent f).isEmpty = true := hne f (List.mem_cons_self f rest)
    have hrest : ∀ g ∈ rest, ¬(trimmedContent g).isEmpty = true :=
      fun g hg => hne g (List.mem_cons_of_mem f hg)
    simp only [subsetGo]
    by_cases hsel : (c + 1) % 1000 = 0
    · rw [if_pos (by simp [hsel]), if_neg hf]
      simp only [List.length_cons, ih (c + 1) hrest]
      omega
    · rw [if_neg (by simp [hsel])]
      rw [ih (c + 1) hrest]
      simp only [List.length_cons]
      omega

theorem globalFiles_length (shards : List (String × List PFile)) :
    (globalFiles shards).length = ((shards.map (fun p => p.2)).flatten).length := by
  unfold globalFiles
  rw [List.length_flatten, List.length_flatten]
  rw [List.map_map, List.map_map]
  have h1 : (List.insertionSort shardLe shards).map
        (List.length ∘ fun p => List.insertionSort fileLe p.2)
      = (List.insertionSort shardLe shards).map (fun p => p.2.length) := by
    apply List.map_congr_left
    intro p hp
    exact (List.perm_insertionSort fileLe p.2).length_eq
  rw [h1]
  exact ((List.perm_insertionSort shardLe shards).map (fun p => p.2.length)).sum_eq

theorem globalFiles_nonempty (shards : List (String × List PFile))
    (h : ∀ f ∈ (shards.map (fun p => p.2)).flatten, ¬(trimmedContent f).isEmpty = true) :
    ∀ f ∈ globalFiles shards, ¬(trimmedContent f).isEmpty = true := by
  intro f hf
  unfold globalFiles at hf
  rw [List.mem_flatten] at hf
  obtain ⟨l, hl, hfl⟩ := hf
  rw [List.mem_map] at hl
  obtain ⟨p, hp, hpe⟩ := hl
  have hp2 : p ∈ shards := (List.perm_insertionSort shardLe shards).mem_iff.mp hp
  have hf2 : f ∈ p.2 := (List.perm_insertionSort fileLe p.2).mem_iff.mp (hpe ▸ hfl)
  apply h
  rw [List.mem_flatten]
  exact ⟨p.2, List.mem_map.mpr ⟨p, hp2, rfl⟩, hf2⟩

/-- C9: with numerator 1 and denominator 1000, over a shard tree with 10000
files (all nonempty after lower().strip(), as abstract files are),
`build_subset` emits exactly the files at global positions 1000, 2000, ...,
10000 of the traversal order — lexicographic shard order, numeric
identifier order within each shard — so exactly 10 files are retained, evenly
spaced by the running global file counter. -/
theorem c9_sampling_ratio (shards : List (String × List PFile))
    (h10k : ((shards.map (fun p => p.2)).flatten).length = 10000)
    (hne : ∀ f ∈ (shards.map (fun p => p.2)).flatten,
      ¬(trimmedContent f).isEmpty = true) :
    build_subset shards 1 1000 =
      ((List.enumFrom 1 (globalFiles shards)).filter
        (fun p => decide (p.1 % 1000 = 0))).map (fun p => renderFile p.2) ∧
    (build_subset shards 1 1000).length = 10 := by
  have hg := globalFiles_nonempty shards hne
  have hlen : (globalFiles shards).length = 10000 := by
    rw [globalFiles_length]
    exact h10k
  constructor
  · unfold build_subset
    rw [intervalsOf_one]
    exact subsetGo_eq_filter (globalFiles shards) 0 hg
  · unfold build_subset
    rw [intervalsOf_one]
    rw [subsetGo_len_1000 (globalFiles shards) 0 hg, hlen]

/-- C9 witness: a concrete shard tree of 10000 nonempty files; the hypotheses
are discharged and the conclusion follows by the theorem. -/
theorem c9_sampling_ratio_witness :
    ((([("0000", List.replicate 10000 (⟨1, "x"⟩ : PFile))].map (fun p => p.2)).flatten).length
        = 10000 ∧
      (∀ f ∈ ([("0000", List.replicate 10000 (⟨1, "x"⟩ : PFile))].map
          (fun p => p.2)).flatten, ¬(trimmedContent f).isEmpty = true)) ∧
    (build_subset [("0000", List.replicate 10000 (⟨1, "x"⟩ : PFile))] 1 1000 =
        ((List.enumFrom 1 (globalFiles [("0000", List.replicate 10000 (⟨1, "x"⟩ : PFile))])).filter
          (fun p => decide (p.1 % 1000 = 0))).map (fun p => renderFile p.2) ∧
      (build_subset [("0000", List.replicate 10000 (⟨1, "x"⟩ : PFile))] 1 1000).length = 10) := by
  have h1 : ((([("0000", List.replicate 10000 (⟨1, "x"⟩ : PFile))].map
      (fun p => p.2)).flatten).length = 10000) := by
    rw [List.map_cons, List.map_nil, List.flatten_cons, List.flatten_nil, List.append_nil,
      List.length_replicate]
  have h2 : ∀ f ∈ ([("0000", List.replicate 10000 (⟨1, "x"⟩ : PFile))].map
      (fun p => p.2)).flatten, ¬(trimmedContent f).isEmpty = true := by
    intro f hf
    rw [List.map_cons, List.map_nil, List.flatten_cons, List.flatten_nil,
      List.append_nil] at hf
    rw [List.mem_replicate] at hf
    rw [hf.2]
    decide
  exact ⟨⟨h1, h2⟩, c9_sampling_ratio _ h1 h2⟩

end PreparePubmedSubset

/-! ### C2: extensional characterization of the vocabulary -/

namespace BuildTopicModel

theorem keptTokenB_eq (minLen : Nat) (stop : List String) (t : String) :
    keptTokenB minLen stop t = (!(decide (t ∈ stop)) && !(badFlagB minLen t)) := by
  unfold keptTokenB badFlagB
  have h : (!(decide (t.length < minLen))) = decide (minLen ≤ t.length) := by
    by_cases hl : t.length < minLen
    · simp [hl, Nat.not_le.mpr hl]
    · simp [hl, Nat.le_of_not_lt hl]
  rw [← h]
  simp [Bool.not_or, Bool.and_assoc]

theorem lineStep_ok (minLen : Nat) (stop ws ds ws2 ds2 : List String) (line : String)
    (h : lineStep minLen stop (ws, ds) line = .ok (ws2, ds2)) :
    ds2 = ds ++ [lineId line] ∧
    (∀ x, x ∈ ws2 ↔ x ∈ ws ∨ (x ∈ lineToks line ∧ keptTokenB minLen stop x = true)) ∧
    (ws.Nodup → ws2.Nodup) := by
  simp only [lineStep] at h
  cases hfb : filterBad minLen (sortStrings ((firstDedup (pySplit line).tail).filter
      (fun t => !(decide (t ∈ stop))))) with
  | error e => rw [hfb] at h; exact Except.noConfusion h
  | ok kept =>
    rw [hfb] at h
    injection h with h2
    have hws : ws2 = ws ++ kept.filter (fun t => !(decide (t ∈ ws))) :=
      (congrArg Prod.fst h2).symm
    have hds : ds2 = ds ++ [(pySplit line).headD ""] := (congrArg Prod.snd h2).symm
    obtain ⟨hne, hkept⟩ := filterBad_ok minLen _ kept hfb
    have hkN : kept.Nodup := by
      rw [hkept]
      exact (sortStrings_nodup ((firstDedup_nodup (pySplit line).tail).filter _)).filter _
    refine ⟨hds, ?_, ?_⟩
    · intro x
      rw [hws, List.mem_append, List.mem_filter]
      constructor
      · rintro (hx | ⟨hx, _⟩)
        · exact Or.inl hx
        · right
          rw [hkept, List.mem_filter, sortStrings_mem, List.mem_filter,
            firstDedup_mem] at hx
          refine ⟨hx.1.1, ?_⟩
          rw [keptTokenB_eq]
          rw [Bool.and_eq_true]
          exact ⟨hx.1.2, hx.2⟩
      · rintro (hx | ⟨ht, hk⟩)
        · exact Or.inl hx
        · by_cases hxw : x ∈ ws
          · exact Or.inl hxw
          · right
            rw [keptTokenB_eq, Bool.and_eq_true] at hk
            refine ⟨?_, by simp [hxw]⟩
            rw [hkept, List.mem_filter, sortStrings_mem, List.mem_filter, firstDedup_mem]
            exact ⟨⟨ht, hk.1⟩, hk.2⟩
    · intro hN
      rw [hws]
      refine List.Nodup.append hN (hkN.filter _) ?_
      intro x hx hx2
      rw [List.mem_filter] at hx2
      have := hx2.2
      simp only [Bool.not_eq_eq_eq_not, Bool.not_true, decide_eq_false_iff_not] at this
      exact this hx

theorem foldSteps_ok (minLen : Nat) (stop : List String) :
    ∀ (ls ws ds ws2 ds2 : List String),
      List.foldlM (lineStep minLen stop) (ws, ds) ls = .ok (ws2, ds2) →
      ds2 = ds ++ ls.map lineId ∧
      (∀ x, x ∈ ws2 ↔ x ∈ ws ∨
        ∃ l ∈ ls, x ∈ lineToks l ∧ keptTokenB minLen stop x = true) ∧
      (ws.Nodup → ws2.Nodup) := by
  intro ls
  induction ls with
  | nil =>
    intro ws ds ws2 ds2 h
    have h2 : (Except.ok (ws, ds) : Except PyErr (List String × List String))
        = .ok (ws2, ds2) := h
    injection h2 with h3
    have hw : ws2 = ws := (congrArg Prod.fst h3).symm
    have hd : ds2 = ds := (congrArg Prod.snd h3).symm
    subst hw
    subst hd
    simp
  | cons l rest ih =>
    intro ws ds ws2 ds2 h
    rw [List.foldlM_cons] at h
    cases hs : lineStep minLen stop (ws, ds) l with
    | error e =>
      rw [hs] at h
      exact Except.noConfusion
        (show (Except.error e : Except PyErr (List String × List String))
          = .ok (ws2, ds2) from h)
    | ok mid =>
      rw [hs] at h
      have h2 : List.foldlM (lineStep minLen stop) mid rest = .ok (ws2, ds2) := h
      obtain ⟨hd1, hm1, hn1⟩ := lineStep_ok minLen stop ws ds mid.1 mid.2 l hs
      obtain ⟨hd2, hm2, hn2⟩ := ih mid.1 mid.2 ws2 ds2 h2
      refine ⟨?_, ?_, fun hN => hn2 (hn1 hN)⟩
      · rw [hd2, hd1, List.map_cons, List.append_assoc]
        rfl
      · intro x
        rw [hm2 x, hm1 x]
        constructor
        · rintro ((hw | ⟨ht, hk⟩) | ⟨l2, hl2, ht2, hk2⟩)
          · exact Or.inl hw
          · exact Or.inr ⟨l, List.mem_cons_self l rest, ht, hk⟩
          · exact Or.inr ⟨l2, List.mem_cons_of_mem l hl2, ht2, hk2⟩
        · rintro (hw | ⟨l2, hl2, ht2, hk2⟩)
          · exact Or.inl (Or.inl hw)
          · rcases List.mem_cons.mp hl2 with he | hl3
            · subst he
              exact Or.inl (Or.inr ⟨ht2, hk2⟩)
            · exact Or.inr ⟨l2, hl3, ht2, hk2⟩

/-- C2 (amended): for every run of the indexing pass that returns, the
vocabulary equals exactly the sorted list of the distinct tokens drawn from the
non-ID fields of the processed lines that pass the five filters exactly as the
code applies them: not a stopword, no double hyphen, no leading hyphen, not
starting with an optional sign followed by a digit/period/comma (the regex is
prefix-matched and carries no repetition), and length at least the minimum. -/
theorem c2_vocabulary_characterization (files : List (List String))
    (cap minLen : Nat) (stop ws ds ls : List String)
    (hg : get_words_and_documents files cap minLen stop = .ok (ws, ds))
    (hls : tryLines cap files = .ok ls) :
    ws = acceptedVocabulary minLen stop ls := by
  rw [gwad_eq minLen stop hls] at hg
  cases hf : List.foldlM (lineStep minLen stop) ([], []) ls with
  | error e => rw [hf] at hg; exact Except.noConfusion hg
  | ok r =>
    rw [hf] at hg
    injection hg with h2
    have hws : ws = sortStrings r.1 := (congrArg Prod.fst h2).symm
    obtain ⟨hd, hm, hn⟩ := foldSteps_ok minLen stop ls [] [] r.1 r.2 hf
    have hperm : r.1.Perm
        (firstDedup (((ls.map lineToks).flatten).filter (keptTokenB minLen stop))) := by
      rw [List.perm_ext_iff_of_nodup (hn List.nodup_nil) (firstDedup_nodup _)]
      intro x
      rw [hm x, firstDedup_mem, List.mem_filter, List.mem_flatten]
      constructor
      · rintro (hx | ⟨l, hl, ht, hk⟩)
        · exact absurd hx (List.not_mem_nil x)
        · exact ⟨⟨lineToks l, List.mem_map.mpr ⟨l, hl, rfl⟩, ht⟩, hk⟩
      · rintro ⟨⟨tl, htl, hx⟩, hk⟩
        right
        rw [List.mem_map] at htl
        obtain ⟨l, hl, he⟩ := htl
        exact ⟨l, hl, he ▸ hx, hk⟩
    rw [hws]
    unfold acceptedVocabulary
    exact sortStrings_eq_of_perm hperm

/-- C2 witness: a concrete two-line corpus; both hypotheses hold by evaluation
and the vocabulary equals the accepted-token characterization. -/
theorem c2_vocabulary_characterization_witness :
    (get_words_and_documents [["7 aa", "8 bb aa"]] 5 2 [] = .ok (["aa", "bb"], ["7", "8"]) ∧
      tryLines 5 [["7 aa", "8 bb aa"]] = .ok ["7 aa", "8 bb aa"]) ∧
    (["aa", "bb"] : List String) = acceptedVocabulary 2 [] ["7 aa", "8 bb aa"] :=
  ⟨⟨rfl, rfl⟩,
    c2_vocabulary_characterization [["7 aa", "8 bb aa"]] 5 2 [] ["aa", "bb"] ["7", "8"]
      ["7 aa", "8 bb aa"] rfl rfl⟩

end BuildTopicModel

/-! ### C1: dictionary-index and matrix-cell lemmas -/

namespace BuildTopicModel

theorem dictIndexFrom_some (s : String) :
    ∀ (l : List String) (i j : Nat), dictIndexFrom s l i = some j →
      i ≤ j ∧ j - i < l.length ∧ l.getD (j - i) "" = s := by
  intro l
  induction l with
  | nil => intro i j h; exact Option.noConfusion h
  | cons x xs ih =>
    intro i j h
    rw [dictIndexFrom] at h
    cases hr : dictIndexFrom s xs (i + 1) with
    | some j2 =>
      rw [hr] at h
      have h2 : (some j2 : Option Nat) = some j := h
      injection h2 with h3
      subst h3
      obtain ⟨hle, hlt, hget⟩ := ih (i + 1) j2 hr
      refine ⟨by omega, by simp only [List.length_cons]; omega, ?_⟩
      have hx : j2 - i = (j2 - (i + 1)) + 1 := by omega
      rw [hx, List.getD_cons_succ]
      exact hget
    | none =>
      rw [hr] at h
      split_ifs at h with hx
      · have h2 : (some i : Option Nat) = some j := h
        injection h2 with h3
        subst h3
        refine ⟨Nat.le_refl i, by simp only [List.length_cons]; omega, ?_⟩
        rw [Nat.sub_self, List.getD_cons_zero]
        exact hx

theorem dictIndexFrom_not_mem (s : String) :
    ∀ (l : List String) (i : Nat), s ∉ l → dictIndexFrom s l i = none := by
  intro l
  induction l with
  | nil => intro i _; rfl
  | cons x xs ih =>
    intro i h
    rw [dictIndexFrom, ih (i + 1) (fun hx => h (List.mem_cons_of_mem x hx))]
    rw [if_neg]
    intro he
    exact h (he ▸ List.mem_cons_self x xs)

theorem dictIndexFrom_isSome (s : String) :
    ∀ (l : List String) (i : Nat), s ∈ l → (dictIndexFrom s l i).isSome = true := by
  intro l
  induction l with
  | nil => intro i h; exact absurd h (List.not_mem_nil s)
  | cons x xs ih =>
    intro i h
    rw [dictIndexFrom]
    cases hr : dictIndexFrom s xs (i + 1) with
    | some j => rfl
    | none =>
      rcases List.mem_cons.mp h with he | hm
      · rw [if_pos he.symm]
        rfl
      · have h2 := ih (i + 1) hm
        rw [hr] at h2
        exact absurd h2 (by decide)

theorem dictIndexFrom_nodup (s : String) :
    ∀ (l : List String) (i k : Nat), l.Nodup → k < l.length → l.getD k "" = s →
      dictIndexFrom s l i = some (i + k) := by
  intro l
  induction l with
  | nil => intro i k _ hk _; exact absurd hk (by simp)
  | cons x xs ih =>
    intro i k hnd hk hget
    rw [dictIndexFrom]
    cases k with
    | zero =>
      rw [List.getD_cons_zero] at hget
      have hnm : s ∉ xs := hget ▸ (List.nodup_cons.mp hnd).1
      rw [dictIndexFrom_not_mem s xs (i + 1) hnm, if_pos hget]
      rfl
    | succ k2 =>
      rw [List.getD_cons_succ] at hget
      have h2 := ih (i + 1) k2 (List.nodup_cons.mp hnd).2 (by simpa using hk) hget
      rw [h2, show i + 1 + k2 = i + (k2 + 1) from by omega]

theorem dictIndex_some {l : List String} {s : String} {j : Nat}
    (h : dictIndex l s = some j) : j < l.length ∧ l.getD j "" = s := by
  obtain ⟨_, hlt, hget⟩ := dictIndexFrom_some s l 0 j h
  rw [Nat.sub_zero] at hlt hget
  exact ⟨hlt, hget⟩

theorem dictIndex_of_get (l : List String) (hN : l.Nodup) (k : Nat)
    (hk : k < l.length) : dictIndex l (l.getD k "") = some k := by
  have h := dictIndexFrom_nodup (l.getD k "") l 0 k hN hk rfl
  rw [Nat.zero_add] at h
  exact h

theorem mget_cons (e : (Nat × Nat) × Nat) (m : Mat) (r c : Nat) :
    mget (e :: m) r c = if e.1 = (r, c) then e.2 else mget m r c := by
  unfold mget
  rw [List.find?_cons]
  by_cases h : e.1 = (r, c)
  · simp [h]
  · simp [h]

theorem mget_zero_of_cols (m : Mat) (c : Nat) (h : ∀ e ∈ m, e.1.2 ≠ c) (r : Nat) :
    mget m r c = 0 := by
  unfold mget
  have hn : List.find? (fun e => decide (e.1 = (r, c))) m = none := by
    rw [List.find?_eq_none]
    intro e he
    simp only [decide_eq_true_eq]
    intro heq
    exact h e he (congrArg Prod.snd heq)
  rw [hn]

theorem getD_map_lineId : ∀ (ls : List String) (k : Nat),
    (ls.map lineId).getD k "" = lineId (ls.getD k "") := by
  intro ls
  induction ls with
  | nil => intro k; simp [List.getD]; rfl
  | cons l rest ih =>
    intro k
    cases k with
    | zero => rfl
    | succ k2 =>
      rw [List.map_cons, List.getD_cons_succ, List.getD_cons_succ]
      exact ih k2

theorem matWrites_fold (ws ds : List String) (hwsN : ws.Nodup) (id : String) (j : Nat)
    (hj : dictIndex ds id = some j) (counted : List String) :
    ∀ (wl : List String) (m : Mat),
      (∀ w ∈ wl, (dictIndex ws w).isSome = true) →
      ∃ m2,
        List.foldlM (fun acc w =>
            match dictIndex ws w with
            | none => Except.error PyErr.keyError
            | some r =>
              match dictIndex ds id with
              | none => Except.error PyErr.keyError
              | some c => Except.ok (((r, c), counted.count w) :: acc)) m wl = .ok m2 ∧
        (∀ e ∈ m2, e ∈ m ∨ e.1.2 = j) ∧
        (∀ r c : Nat, r < ws.length →
          mget m2 r c =
            if c = j ∧ ws.getD r "" ∈ wl then counted.count (ws.getD r "")
            else mget m r c) := by
  intro wl
  induction wl with
  | nil =>
    intro m _
    refine ⟨m, rfl, fun e he => Or.inl he, ?_⟩
    intro r c _
    rw [if_neg (fun hco => absurd hco.2 (List.not_mem_nil _))]
  | cons w wl2 ih =>
    intro m hmem
    have hw : (dictIndex ws w).isSome = true := hmem w (List.mem_cons_self w wl2)
    cases hr0 : dictIndex ws w with
    | none => rw [hr0] at hw; exact absurd hw (by decide)
    | some r0 =>
      obtain ⟨m2, hfold, hkeys, hget⟩ :=
        ih (((r0, j), counted.count w) :: m)
          (fun u hu => hmem u (List.mem_cons_of_mem w hu))
      refine ⟨m2, ?_, ?_, ?_⟩
      · simp only [List.foldlM_cons]
        have hhead : (match dictIndex ws w with
            | none => Except.error PyErr.keyError
            | some r =>
              match dictIndex ds id with
              | none => Except.error PyErr.keyError
              | some c => Except.ok (((r, c), counted.count w) :: m)) =
            Except.ok (((r0, j), counted.count w) :: m) := by
          rw [hr0, hj]
        rw [hhead]
        exact hfold
      · intro e he
        rcases hkeys e he with he2 | he2
        · rcases List.mem_cons.mp he2 with he3 | he3
          · right; rw [he3]
          · left; exact he3
        · right; exact he2
      · intro r c hr
        rw [hget r c hr, mget_cons]
        have hr0facts := dictIndexFrom_some w ws 0 r0 hr0
        by_cases h1 : c = j ∧ ws.getD r "" ∈ wl2
        · rw [if_pos h1, if_pos ⟨h1.1, List.mem_cons_of_mem w h1.2⟩]
        · rw [if_neg h1]
          by_cases h2 : ws.getD r "" = w ∧ c = j
          · have hkey : ((r0, j) : Nat × Nat) = (r, c) := by
              have hgr : dictIndex ws (ws.getD r "") = some r :=
                dictIndex_of_get ws hwsN r hr
              rw [h2.1] at hgr
              rw [hgr] at hr0
              injection hr0 with hrr
              rw [← hrr, h2.2]
            rw [if_pos hkey, if_pos ⟨h2.2, List.mem_cons.mpr (Or.inl h2.1)⟩, h2.1]
          · have hkey : ¬(((r0, j) : Nat × Nat) = (r, c)) := by
              intro hk
              have hr2 : r0 = r := congrArg Prod.fst hk
              have hc2 : j = c := congrArg Prod.snd hk
              obtain ⟨_, _, hgd⟩ := hr0facts
              rw [Nat.sub_zero] at hgd
              rw [hr2] at hgd
              exact h2 ⟨hgd, hc2.symm⟩
            rw [if_neg hkey, if_neg]
            rintro ⟨hcj, hmem2⟩
            rcases List.mem_cons.mp hmem2 with he | he
            · exact h2 ⟨he, hcj⟩
            · exact h1 ⟨hcj, he⟩

theorem matStep_ok_mget (ws ds : List String) (hwsN : ws.Nodup) (line : String)
    (j : Nat) (hj : dictIndex ds ((pySplit line).headD "") = some j) (m : Mat) :
    ∃ m2, matStep (dictIndex ws) (dictIndex ds) m line = .ok m2 ∧
      (∀ e ∈ m2, e ∈ m ∨ e.1.2 = j) ∧
      (∀ r c : Nat, r < ws.length →
        mget m2 r c =
          if c = j ∧ ws.getD r "" ∈ lineCounted ws line
          then (lineCounted ws line).count (ws.getD r "") else mget m r c) := by
  have hmem : ∀ w ∈ firstDedup (lineCounted ws line),
      (dictIndex ws w).isSome = true := by
    intro w hw
    rw [firstDedup_mem] at hw
    unfold lineCounted at hw
    rw [List.mem_filter] at hw
    exact hw.2
  obtain ⟨m2, hfold, hkeys, hget⟩ := matWrites_fold ws ds hwsN
    ((pySplit line).headD "") j hj (lineCounted ws line)
    (firstDedup (lineCounted ws line)) m hmem
  refine ⟨m2, hfold, hkeys, ?_⟩
  intro r c hr
  rw [hget r c hr]
  by_cases h1 : c = j ∧ ws.getD r "" ∈ lineCounted ws line
  · rw [if_pos ⟨h1.1, (firstDedup_mem _ _).mpr h1.2⟩, if_pos h1]
  · rw [if_neg, if_neg h1]
    rintro ⟨hc, hm2⟩
    exact h1 ⟨hc, (firstDedup_mem _ _).mp hm2⟩

theorem matFold_lines (ws ds : List String) (hwsN : ws.Nodup) :
    ∀ (ls2 : List String) (m0 : Nat) (m : Mat),
      (∀ k, k < ls2.length → dictIndex ds (lineId (ls2.getD k "")) = some (m0 + k)) →
      (∀ e ∈ m, e.1.2 < m0) →
      ∃ m2, List.foldlM (matStep (dictIndex ws) (dictIndex ds)) m ls2 = .ok m2 ∧
        (∀ e ∈ m2, e.1.2 < m0 + ls2.length) ∧
        (∀ r c : Nat, r < ws.length →
          mget m2 r c =
            if m0 ≤ c ∧ c < m0 + ls2.length then
              (lineCounted ws (ls2.getD (c - m0) "")).count (ws.getD r "")
            else mget m r c) := by
  intro ls2
  induction ls2 with
  | nil =>
    intro m0 m _ hkeys
    refine ⟨m, rfl, ?_, ?_⟩
    · intro e he
      simp only [List.length_nil, Nat.add_zero]
      exact hkeys e he
    · intro r c _
      rw [if_neg]
      rintro ⟨h1, h2⟩
      simp only [List.length_nil, Nat.add_zero] at h2
      omega
  | cons line rest ih =>
    intro m0 m hcols hkeys
    have hj : dictIndex ds (lineId line) = some m0 := by
      have h0 := hcols 0 (by simp)
      rw [List.getD_cons_zero] at h0
      simpa using h0
    obtain ⟨m1, hstep, hkeys1, hget1⟩ := matStep_ok_mget ws ds hwsN line m0 hj m
    have hkeys1b : ∀ e ∈ m1, e.1.2 < m0 + 1 := by
      intro e he
      rcases hkeys1 e he with he2 | he2
      · exact Nat.lt_succ_of_lt (hkeys e he2)
      · omega
    have hcols2 : ∀ k, k < rest.length →
        dictIndex ds (lineId (rest.getD k "")) = some (m0 + 1 + k) := by
      intro k hk
      have h1 := hcols (k + 1) (by simpa using Nat.succ_lt_succ hk)
      rw [List.getD_cons_succ] at h1
      rw [h1, show m0 + (k + 1) = m0 + 1 + k from by omega]
    obtain ⟨m2, hfold, hkeys2, hget2⟩ := ih (m0 + 1) m1 hcols2 hkeys1b
    refine ⟨m2, ?_, ?_, ?_⟩
    · rw [List.foldlM_cons, hstep]
      exact hfold
    · intro e he
      have h1 := hkeys2 e he
      simp only [List.length_cons]
      omega
    · intro r c hr
      rw [hget2 r c hr]
      by_cases hA : m0 + 1 ≤ c ∧ c < m0 + 1 + rest.length
      · rw [if_pos hA, if_pos (by simp only [List.length_cons]; omega)]
        have hx : c - m0 = (c - (m0 + 1)) + 1 := by omega
        rw [hx, List.getD_cons_succ]
      · rw [if_neg hA, hget1 r c hr]
        by_cases hB : c = m0
        · subst hB
          rw [if_pos (show c ≤ c ∧ c < c + (line :: rest).length by
            simp only [List.length_cons]; omega)]
          rw [Nat.sub_self, List.getD_cons_zero]
          by_cases hC : ws.getD r "" ∈ lineCounted ws line
          · rw [if_pos ⟨rfl, hC⟩]
          · rw [if_neg (fun hco => hC hco.2)]
            rw [mget_zero_of_cols m c (fun e he => Nat.ne_of_lt (hkeys e he)) r]
            exact (List.count_eq_zero.mpr hC).symm
        · rw [if_neg (fun hco => hB hco.1), if_neg]
          rintro ⟨h1, h2⟩
          simp only [List.length_cons] at h2
          omega

theorem sum_map_add (l : List String) (f g : String → Nat) :
    (l.map (fun x => f x + g x)).sum = (l.map f).sum + (l.map g).sum := by
  induction l with
  | nil => rfl
  | cons x xs ih =>
    simp only [List.map_cons, List.sum_cons, ih]
    omega

theorem sum_ind_nodup (t : String) :
    ∀ ws : List String, ws.Nodup →
      (ws.map (fun w => if t == w then 1 else 0)).sum = if t ∈ ws then 1 else 0 := by
  intro ws
  induction ws with
  | nil => intro _; simp
  | cons w ws2 ih =>
    intro hnd
    simp only [List.map_cons, List.sum_cons]
    rw [ih (List.nodup_cons.mp hnd).2]
    by_cases he : t = w
    · subst he
      have hnm : t ∉ ws2 := (List.nodup_cons.mp hnd).1
      simp [hnm]
    · have hbe : (t == w) = false := by
        rw [beq_eq_false_iff_ne]
        exact he
      rw [hbe]
      by_cases hm : t ∈ ws2
      · simp [hm, List.mem_cons, he]
      · simp [hm, List.mem_cons, he]

theorem sum_counts (ws : List String) (hN : ws.Nodup) :
    ∀ L : List String, (ws.map (fun w => L.count w)).sum
      = (L.filter (fun t => decide (t ∈ ws))).length := by
  intro L
  induction L with
  | nil => simp
  | cons t L2 ih =>
    have hcc : ws.map (fun w => (t :: L2).count w)
        = ws.map (fun w => L2.count w + if t == w then 1 else 0) := by
      apply List.map_congr_left
      intro w _
      rw [List.count_cons]
    rw [hcc, sum_map_add, ih, sum_ind_nodup t ws hN, List.filter_cons]
    by_cases hm : t ∈ ws
    · simp [hm]
    · simp [hm]

theorem sum_range_getD (d : String) (f : String → Nat) :
    ∀ ls : List String,
      ((List.range ls.length).map (fun i => f (ls.getD i d))).sum = (ls.map f).sum := by
  intro ls
  induction ls with
  | nil => rfl
  | cons x xs ih =>
    rw [List.length_cons, List.range_succ_eq_map]
    simp only [List.map_cons, List.map_map, List.sum_cons, List.getD_cons_zero]
    congr 1

/-- C1 (amended): when `build_matrix` is run with the vocabulary and document
axis produced by `get_words_and_documents` over the same ordered file list and
cap, and the document axis contains no duplicate IDs, then every vocabulary
word's row sums to its total occurrence count across the processed documents,
and every processed document's column sums to the number of vocabulary-word
occurrences it contains. -/
theorem c1_row_col_sums_of_nodup_docs (files : List (List String))
    (cap minLen : Nat) (stop ws ds ls : List String)
    (hg : get_words_and_documents files cap minLen stop = .ok (ws, ds))
    (hls : tryLines cap files = .ok ls)
    (hnd : ds.Nodup) :
    ∃ m, build_matrix files ws ds cap = .ok m ∧
      (∀ r, r < ws.length →
        rowSum m r ds.length = totalOccurrences (ws.getD r "") ls) ∧
      (∀ c, c < ds.length →
        colSum m c ws.length = vocabOccurrences ws (ls.getD c "")) := by
  rw [gwad_eq minLen stop hls] at hg
  cases hf : List.foldlM (lineStep minLen stop) ([], []) ls with
  | error e => rw [hf] at hg; exact Except.noConfusion hg
  | ok r0 =>
    rw [hf] at hg
    injection hg with h2
    have hws : ws = sortStrings r0.1 := (congrArg Prod.fst h2).symm
    have hds : ds = r0.2 := (congrArg Prod.snd h2).symm
    obtain ⟨hdocs, hmem, hn⟩ := foldSteps_ok minLen stop ls [] [] r0.1 r0.2 hf
    have hwsN : ws.Nodup := by
      rw [hws]
      exact sortStrings_nodup (hn List.nodup_nil)
    have hdsmap : ds = ls.map lineId := by
      rw [hds, hdocs]
      rfl
    have hdslen : ds.length = ls.length := by rw [hdsmap, List.length_map]
    have hcols : ∀ k, k < ls.length →
        dictIndex ds (lineId (ls.getD k "")) = some (0 + k) := by
      intro k hk
      have hget : ds.getD k "" = lineId (ls.getD k "") := by
        rw [hdsmap]
        exact getD_map_lineId ls k
      have h3 := dictIndexFrom_nodup (lineId (ls.getD k "")) ds 0 k hnd
        (by omega) hget
      exact h3
    obtain ⟨m, hfold, _, hget⟩ := matFold_lines ws ds hwsN ls 0 [] hcols
      (fun e he => absurd he (List.not_mem_nil e))
    have hid : ∀ r, r < ws.length → (dictIndex ws (ws.getD r "")).isSome = true := by
      intro r hr
      rw [dictIndex_of_get ws hwsN r hr]
      rfl
    refine ⟨m, ?_, ?_, ?_⟩
    · rw [build_matrix_eq ws ds hls]
      exact hfold
    · intro r hr
      unfold rowSum
      have hcong : (List.range ds.length).map (fun c => mget m r c)
          = (List.range ds.length).map
              (fun c => (lineToks (ls.getD c "")).count (ws.getD r "")) := by
        apply List.map_congr_left
        intro c hc
        rw [List.mem_range] at hc
        rw [hget r c hr, if_pos ⟨Nat.zero_le c, by omega⟩, Nat.sub_zero]
        unfold lineCounted
        rw [List.count_filter]
        exact hid r hr
      rw [hcong, hdslen]
      exact sum_range_getD "" (fun l => (lineToks l).count (ws.getD r "")) ls
    · intro c hc
      unfold colSum
      have h1 : ((List.range ws.length).map (fun r => mget m r c)).sum
          = ((List.range ws.length).map
              (fun r => (lineCounted ws (ls.getD c "")).count (ws.getD r ""))).sum := by
        congr 1
        apply List.map_congr_left
        intro r hrr
        rw [List.mem_range] at hrr
        rw [hget r c hrr, if_pos ⟨Nat.zero_le c, by omega⟩, Nat.sub_zero]
      rw [h1,
        sum_range_getD "" (fun w => (lineCounted ws (ls.getD c "")).count w) ws,
        sum_counts ws hwsN (lineCounted ws (ls.getD c ""))]
      unfold vocabOccurrences lineCounted
      rw [List.filter_filter]
      apply congrArg List.length
      apply List.filter_congr
      intro t ht
      by_cases hm2 : t ∈ ws
      · have hs2 : (dictIndex ws t).isSome = true := dictIndexFrom_isSome t ws 0 hm2
        simp [hm2, hs2]
      · simp [hm2]

/-- C1 witness: a concrete two-line corpus with distinct document IDs; the
hypotheses are discharged by evaluation and the sums follow by the theorem. -/
theorem c1_row_col_sums_witness :
    (get_words_and_documents [["7 aa", "8 bb aa"]] 5 2 []
        = .ok (["aa", "bb"], ["7", "8"]) ∧
      tryLines 5 [["7 aa", "8 bb aa"]] = .ok ["7 aa", "8 bb aa"] ∧
      (["7", "8"] : List String).Nodup) ∧
    (∃ m, build_matrix [["7 aa", "8 bb aa"]] ["aa", "bb"] ["7", "8"] 5 = .ok m ∧
      (∀ r, r < (["aa", "bb"] : List String).length →
        rowSum m r (["7", "8"] : List String).length
          = totalOccurrences ((["aa", "bb"] : List String).getD r "")
              ["7 aa", "8 bb aa"]) ∧
      (∀ c, c < (["7", "8"] : List String).length →
        colSum m c (["aa", "bb"] : List String).length
          = vocabOccurrences ["aa", "bb"]
              ((["7 aa", "8 bb aa"] : List String).getD c ""))) :=
  ⟨⟨rfl, rfl, by decide⟩,
    c1_row_col_sums_of_nodup_docs [["7 aa", "8 bb aa"]] 5 2 [] ["aa", "bb"]
      ["7", "8"] ["7 aa", "8 bb aa"] rfl rfl (by decide)⟩

end BuildTopicModel
